import Mathlib

/-!
Verification of the beacon-chain indexer core (package indexer, file
part_001) and the beacon RPC client (package rpc, file part_000) of the
dora repository.  The Go code is shallowly embedded: machine integers are
naturals with explicit reduction modulo 2^64 wherever Go's uint64
arithmetic can wrap, maps are functions with the Go zero value as default,
pointer mutation of cached blocks is explicit state passing, and the two
unbounded backward walks of processHeadBlock are given an explicit fuel
parameter (returning none when the fuel runs out, which mirrors
non-termination of the Go loop).
-/

namespace Dora

/-- Modulus of Go's uint64 arithmetic. -/
def U64 : Nat := 2 ^ 64

/-- Go uint64 subtraction a - b (wraps modulo 2^64). -/
def u64sub (a b : Nat) : Nat := (a + (U64 - b % U64)) % U64

/-- Go uint64 addition (wraps modulo 2^64). -/
def u64add (a b : Nat) : Nat := (a + b) % U64

/-- Go uint64 multiplication (wraps modulo 2^64). -/
def u64mul (a b : Nat) : Nat := (a * b) % U64

/-- Go uint64 decrement sidx--, as on the backward walks of processHeadBlock. -/
def u64dec (a : Nat) : Nat := u64sub a 1

/-- One cached block variant (indexer.BlockInfo).  Only the header fields the
indexer reads are modelled: Header.Data.Root, Header.Data.Header.Message.ParentRoot,
Header.Data.Header.Message.Slot, plus the mutable Orphaned flag. -/
structure BlockInfo where
  root : Nat
  parentRoot : Nat
  slot : Nat
  orphaned : Bool
deriving Repr, DecidableEq

/-- The (root, parentRoot, slot) triple carried by a
rpctypes.StandardV1BeaconHeaderResponse passed to processHeadBlock. -/
structure BlockHeader where
  root : Nat
  parentRoot : Nat
  slot : Nat
deriving Repr, DecidableEq

/-- indexerState.cachedBlocks: Go map slot -> []*BlockInfo; a missing key is
the nil slice, modelled as the empty list. -/
def Cache : Type := Nat → List BlockInfo

/-- indexer.EpochStats, restricted to the fields the verified claims read:
the dependent root and the (possibly nil) Assignments handed back to the RPC
client by processCacheCleanup.  Assignments are opaque to the indexer core,
so they are modelled as an abstract numeric token. -/
structure EpochStats where
  dependendRoot : Nat
  assignments : Option Nat
deriving Repr, DecidableEq

/-- The mutable indexerState fields driven by the claims (lastHeadBlock,
lastHeadRoot, cachedBlocks, epochStats, lowestCachedSlot,
lastProcessedEpoch).  lastHeadRoot is nil before the first head block. -/
structure IndexerState where
  lastHeadBlock : Nat
  lastHeadRoot : Option Nat
  cachedBlocks : Cache
  epochStats : Nat → Option EpochStats
  lowestCachedSlot : Nat
  lastProcessedEpoch : Nat

/-- Pointwise update of the cachedBlocks map. -/
def updCache (cache : Cache) (s : Nat) (l : List BlockInfo) : Cache :=
  fun s' => if s' = s then l else cache s'

/-- A Go pointer into the cache, as the pair (slot, index into the slice). -/
def Ref : Type := Nat × Nat

/-- Placeholder block used as getD default; the walks only ever form
references to existing cells, so it is never actually read on the traced
executions. -/
def dfltBlock : BlockInfo := ⟨0, 0, 0, false⟩

/-- Dereference a block pointer. -/
def getRef (cache : Cache) (r : Ref) : BlockInfo :=
  (cache r.1).getD r.2 dfltBlock

/-- Write the Orphaned flag through a block pointer. -/
def setOrphanedAt (cache : Cache) (r : Ref) (v : Bool) : Cache :=
  updCache cache r.1 ((cache r.1).set r.2 { (cache r.1).getD r.2 dfltBlock with orphaned := v })

/-- The cache with no blocks at all. -/
def emptyCache : Cache := fun _ => []

/-- Scan of one slot's block slice during the first backward walk of
processHeadBlock (lines 373-386): skip the new head itself, record the last
block whose root equals the new head's parent root as the reorg base, and
mark every other block Orphaned.  Returns the updated slice and the base
reference (a later match overwrites an earlier one, as in the Go). -/
def baseScanList (headRoot parentRoot sidx : Nat) :
    List BlockInfo → Nat → Option Ref → List BlockInfo × Option Ref
  | [], _, base => ([], base)
  | b :: rest, bidx, base =>
    if b.root = headRoot then
      let r := baseScanList headRoot parentRoot sidx rest (bidx + 1) base
      (b :: r.1, r.2)
    else if b.root = parentRoot then
      let r := baseScanList headRoot parentRoot sidx rest (bidx + 1) (some (sidx, bidx))
      (b :: r.1, r.2)
    else
      let r := baseScanList headRoot parentRoot sidx rest (bidx + 1) base
      ({ b with orphaned := true } :: r.1, r.2)

/-- First backward walk of processHeadBlock (lines 368-390): for sidx from
the new head's slot down while sidx >= lowestCachedSlot (uint64 decrement),
scan each slot; break once a reorg base has been recorded.  none means the
fuel ran out, i.e. the Go loop would still be running. -/
def findBaseLoop (lowest headRoot parentRoot : Nat) :
    Nat → Nat → Cache → Option Ref → Option (Cache × Option Ref)
  | 0, _, _, _ => none
  | fuel + 1, sidx, cache, base =>
    if sidx < lowest then some (cache, base)
    else
      match baseScanList headRoot parentRoot sidx (cache sidx) 0 base with
      | (l', some b) => some (updCache cache sidx l', some b)
      | (l', none) =>
        findBaseLoop lowest headRoot parentRoot fuel (u64dec sidx) (updCache cache sidx l') none

/-- Scan of one slot's slice during the re-canonicalization walk (lines
413-429).  The comparisons read the current orphanedBlock's parent root
through the reference, which is updated in place when a block matches (so
later comparisons in the same pass already chase the new ancestor);
non-matching blocks are marked Orphaned; foundReorgBase is set when a match
is already canonical. -/
def recanonScanList (cache : Cache) (sidx : Nat) :
    List BlockInfo → Nat → Ref → Bool → List BlockInfo × Ref × Bool
  | [], _, ref, found => ([], ref, found)
  | b :: rest, bidx, ref, found =>
    if b.root = (getRef cache ref).parentRoot then
      let r := recanonScanList cache sidx rest (bidx + 1) (sidx, bidx) (found || !b.orphaned)
      (b :: r.1, r.2)
    else
      let r := recanonScanList cache sidx rest (bidx + 1) ref found
      ({ b with orphaned := true } :: r.1, r.2)

/-- One slot of the re-canonicalization walk: scan the slice and write it
back. -/
def recanonScanSlot (cache : Cache) (sidx : Nat) (ref : Ref) (found : Bool) :
    Cache × Ref × Bool :=
  let r := recanonScanList cache sidx (cache sidx) 0 ref found
  (updCache cache sidx r.1, r.2)

/-- Inner loop of the re-canonicalization walk (lines 408-433): sidx runs
downward from reorgBaseSlot - 1 while sidx >= lowestCachedSlot (uint64
decrement); break after a slot in which foundReorgBase became true.  none
means the fuel ran out. -/
def recanonInnerLoop (lowest : Nat) :
    Nat → Nat → Cache → Ref → Bool → Option (Cache × Ref × Bool)
  | 0, _, _, _, _ => none
  | fuel + 1, sidx, cache, ref, found =>
    if sidx < lowest then some (cache, ref, found)
    else
      match recanonScanSlot cache sidx ref found with
      | (cache', ref', true) => some (cache', ref', true)
      | (cache', ref', false) => recanonInnerLoop lowest fuel (u64dec sidx) cache' ref' false

/-- Outer loop of the re-canonicalization walk (lines 401-438): while the
current orphanedBlock is Orphaned, clear its flag and run the inner walk
(which always restarts at reorgBaseSlot - 1, as in the Go); resyncNeeded
accumulates whenever an inner walk ends without reaching an
already-canonical ancestor. -/
def recanonOuterLoop (lowest baseSlot ifuel : Nat) :
    Nat → Cache → Ref → Bool → Option (Cache × Bool)
  | 0, _, _, _ => none
  | ofuel + 1, cache, ref, resync =>
    if (getRef cache ref).orphaned then
      match recanonInnerLoop lowest ifuel (u64dec baseSlot)
          (setOrphanedAt cache ref false) ref false with
      | none => none
      | some (cache'', ref', found) =>
        recanonOuterLoop lowest baseSlot ifuel ofuel cache'' ref' (resync || !found)
    else some (cache, resync)

/-- The slot cache after the insert step of processHeadBlock (lines
344-356): the new BlockInfo (Orphaned false) is appended to the slot's
slice (a missing key yields a one-element slice, since the missing key is
the empty list). -/
def insertedCache (st : IndexerState) (slot : Nat) (h : BlockHeader) : Cache :=
  updCache st.cachedBlocks slot
    (st.cachedBlocks slot
      ++ [{ root := h.root, parentRoot := h.parentRoot, slot := h.slot, orphaned := false }])

/-- The watermark update of processHeadBlock (lines 358-360). -/
def newLowest (st : IndexerState) (slot : Nat) : Nat :=
  if st.lowestCachedSlot = 0 ∨ slot < st.lowestCachedSlot then slot
  else st.lowestCachedSlot

/-- The state written back at the end of processHeadBlock (lines 446-447):
final cache, updated watermark, lastHeadBlock = slot, lastHeadRoot = the
new head's root. -/
def finishHead (st : IndexerState) (slot : Nat) (h : BlockHeader)
    (lowest1 : Nat) (cache : Cache) : IndexerState :=
  { st with cachedBlocks := cache, lowestCachedSlot := lowest1,
            lastHeadBlock := slot, lastHeadRoot := some h.root }

/-- indexer.processHeadBlock (lines 336-450).  Returns none when one of the
backward walks exhausts its fuel (the Go loop would not have terminated
within that many iterations); otherwise the updated state.  The duplicate
check (root compared against every entry at the slot) returns the state
unchanged, before the watermark update, the reorg walks and the head
update, exactly as the Go early return does.  The resyncNeeded flag only
produces a log line in the Go and is dropped here. -/
def processHeadBlock (st : IndexerState) (slot : Nat) (h : BlockHeader)
    (bfuel ifuel ofuel : Nat) : Option IndexerState :=
  if (st.cachedBlocks slot).any (fun b => b.root == h.root) then
    some st
  else
    match st.lastHeadRoot with
    | none => some (finishHead st slot h (newLowest st slot) (insertedCache st slot h))
    | some lhr =>
      if lhr = h.parentRoot then
        some (finishHead st slot h (newLowest st slot) (insertedCache st slot h))
      else
        match findBaseLoop (newLowest st slot) h.root h.parentRoot bfuel slot
            (insertedCache st slot h) none with
        | none => none
        | some (cache2, none) => some (finishHead st slot h (newLowest st slot) cache2)
        | some (cache2, some baseRef) =>
          if (getRef cache2 baseRef).orphaned then
            match recanonOuterLoop (newLowest st slot) baseRef.1 ifuel ofuel
                cache2 baseRef false with
            | none => none
            | some (cache3, _) => some (finishHead st slot h (newLowest st slot) cache3)
          else some (finishHead st slot h (newLowest st slot) cache2)

/-- Modelled from the spec: utils.EpochOfSlot is not part of the provided
sources; the spec defines an epoch as slotsPerEpoch (32) consecutive slots
and firstSlot = epoch * slotsPerEpoch, so the epoch of a slot is the
integer quotient. -/
def epochOfSlot (spe slot : Nat) : Nat := slot / spe

/-- First slot of an epoch, epoch * SlotsPerEpoch in uint64 arithmetic. -/
def epochFirstSlot (spe epoch : Nat) : Nat := u64mul epoch spe

/-- The ascending slot walk shared by processEpoch (lines 595-612) and
BuildLiveEpoch (lines 136-147): starting at a slot, over count consecutive
slots, return the first slot holding a non-orphaned block together with
that block (within one slot the lowest index wins, as in the Go loops). -/
def firstCanonicalAux (cache : Cache) : Nat → Nat → Option (Nat × BlockInfo)
  | _, 0 => none
  | slot, count + 1 =>
    match (cache slot).find? (fun b => !b.orphaned) with
    | some b => some (slot, b)
    | none => firstCanonicalAux cache (slot + 1) count

/-- The epochTarget computed by processEpoch (lines 594-612): walk the
epoch's slots; if the first canonical block sits at the loop slot equal to
firstSlot the target is its root, otherwise its parent root; none when the
epoch holds no canonical block. -/
def processEpochTarget (spe : Nat) (cache : Cache) (epoch : Nat) : Option Nat :=
  match firstCanonicalAux cache (epochFirstSlot spe epoch) spe with
  | none => none
  | some (slot, b) =>
    some (if slot = epochFirstSlot spe epoch then b.root else b.parentRoot)

/-- The target computed by BuildLiveEpoch (lines 133-157): same walk, but
the comparison is against the found block's own header slot
(firstBlock.Header.Data.Header.Message.Slot), and nil is returned when the
epoch has no stats or no canonical block. -/
def BuildLiveEpochTarget (spe : Nat) (st : IndexerState) (epoch : Nat) : Option Nat :=
  match st.epochStats epoch with
  | none => none
  | some _ =>
    match firstCanonicalAux st.cachedBlocks (epochFirstSlot spe epoch) spe with
    | none => none
    | some (_, b) =>
      some (if b.slot = epochFirstSlot spe epoch then b.root else b.parentRoot)

/-- The spec's description of the epoch target (spec section 4.7 step 3):
walk slots firstSlot..lastSlot, take the first non-orphaned block b; if
b's slot equals firstSlot the target is b's root, otherwise b's parent
root; none when no canonical block exists. -/
def epochTargetSpec (spe : Nat) (cache : Cache) (epoch : Nat) : Option Nat :=
  match firstCanonicalAux cache (epochFirstSlot spe epoch) spe with
  | none => none
  | some (_, b) =>
    some (if b.slot = epochFirstSlot spe epoch then b.root else b.parentRoot)

/-- Observable outcome of one processEpoch call (lines 580-666).  The Go
function returns nothing; the constructors record on which path it
returned. -/
inductive EpochOutcome
  | panicNilStats
  | noTarget
  | dbBeginError
  | dbCommitError
  | success
deriving Repr, DecidableEq

/-- Outcomes of the external DB collaborator for one processEpoch call:
whether db.WriterDb.Beginx and tx.Commit succeed.  persistEpochData and
SetExplorerState failures are logged by the Go code without an early
return, so they do not appear among the outcomes. -/
structure DbOracle where
  beginOk : Bool
  commitOk : Bool
deriving Repr, DecidableEq

/-- indexer.processEpoch (lines 580-666).  Reads epochStats (a nil entry
makes the Go dereference epochStats.Validators panic), computes the epoch
target (returning early when none), and runs the DB transaction when
writeDb is set.  The vote aggregation and the written rows live in
collaborators outside the provided sources and have no effect on the
indexer state. -/
def processEpoch (spe : Nat) (writeDb : Bool) (st : IndexerState) (db : DbOracle)
    (epoch : Nat) : EpochOutcome :=
  match st.epochStats epoch with
  | none => .panicNilStats
  | some _ =>
    match processEpochTarget spe st.cachedBlocks epoch with
    | none => .noTarget
    | some _ =>
      if writeDb then
        if !db.beginOk then .dbBeginError
        else if !db.commitOk then .dbCommitError
        else .success
      else .success

/-- The frontier epoch computed by processIndexing (line 549):
currentEpoch - uint64(epochProcessingDelay), in uint64 arithmetic. -/
def processFrontier (spe delay : Nat) (st : IndexerState) : Nat :=
  u64sub (epochOfSlot spe st.lastHeadBlock) delay

/-- indexer.processIndexing (lines 546-554): when lastProcessedEpoch is
below the frontier, call processEpoch on the frontier epoch and then set
lastProcessedEpoch to it unconditionally.  The second component reports
whether processEpoch was invoked and with which outcome. -/
def processIndexing (spe delay : Nat) (writeDb : Bool) (st : IndexerState)
    (db : DbOracle) : IndexerState × Option EpochOutcome :=
  let pe := processFrontier spe delay st
  if st.lastProcessedEpoch < pe then
    ({ st with lastProcessedEpoch := pe }, some (processEpoch spe writeDb st db pe))
  else (st, none)

/-- The epoch dropped by processCacheCleanup (line 561):
currentEpoch - uint64(inMemoryEpochs), in uint64 arithmetic. -/
def cleanEpochOf (spe inMemoryEpochs : Nat) (st : IndexerState) : Nat :=
  u64sub (epochOfSlot spe st.lastHeadBlock) inMemoryEpochs

/-- The cleanup loop (lines 565-571): delete the slice at lowestCachedSlot
and increment the watermark until it reaches the threshold. -/
def dropLoop (cache : Cache) (lowest thr : Nat) : Cache × Nat :=
  if lowest < thr then
    dropLoop (updCache cache lowest []) (lowest + 1) thr
  else (cache, lowest)
termination_by thr - lowest
decreasing_by omega

/-- indexer.processCacheCleanup (lines 556-578).  When the watermark is
below (cleanEpoch+1)*SlotsPerEpoch (uint64 arithmetic), drop all slots up
to that threshold, then evict the cleanEpoch's EpochStats, handing its
Assignments back through rpcClient.AddCachedEpochAssignments; the second
component is that handback call's argument pair, when it happens. -/
def processCacheCleanup (spe inMemoryEpochs : Nat) (st : IndexerState) :
    IndexerState × Option (Nat × Option Nat) :=
  let ce := cleanEpochOf spe inMemoryEpochs st
  let thr := u64mul (u64add ce 1) spe
  if st.lowestCachedSlot < thr then
    let res := dropLoop st.cachedBlocks st.lowestCachedSlot thr
    match st.epochStats ce with
    | some es =>
      ({ st with cachedBlocks := res.1, lowestCachedSlot := res.2,
                 epochStats := fun e => if e = ce then none else st.epochStats e },
       some (ce, es.assignments))
    | none =>
      ({ st with cachedBlocks := res.1, lowestCachedSlot := res.2 }, none)
  else (st, none)

/-- indexer.GetCachedBlocks (lines 102-116): nil below the watermark, nil
for an absent slot, otherwise a defensive copy of the slice (value
semantics here). -/
def GetCachedBlocks (st : IndexerState) (slot : Nat) : Option (List BlockInfo) :=
  if slot < st.lowestCachedSlot then none
  else if st.cachedBlocks slot = [] then none
  else some (st.cachedBlocks slot)

/-- The initial lastProcessedEpoch assignment of runIndexer (lines
181-183): guarded by currentEpoch > int64(epochProcessingDelay), computed
in int64 arithmetic, applied only once at bootstrap. -/
def bootstrapLastProcessedEpoch (delay : Nat) (currentEpoch : Int) : Nat :=
  if currentEpoch > (delay : Int) then (currentEpoch - (delay : Int)).toNat else 0

/-- Result of an external HTTP/RPC fetch performed by the beacon client:
either a decoded value (opaque token) or an error message. -/
def FetchResult : Type := Except String Nat

/-- rpc.BeaconClient.GetProposerDuties (part_000 lines 294-307).  When a
Whisk fork epoch is configured and the queried epoch is at or after it,
the Go returns (nil, nil): Except.ok none is that sentinel.  Otherwise the
fetch result is passed through, errors wrapped with the Go format string. -/
def GetProposerDuties (whiskForkEpoch : Option Nat) (epoch : Nat)
    (fetch : FetchResult) : Except String (Option Nat) :=
  match whiskForkEpoch with
  | some w =>
    if epoch ≥ w then .ok none
    else
      match fetch with
      | .ok d => .ok (some d)
      | .error e => .error ("error retrieving proposer duties: " ++ e)
  | none =>
    match fetch with
    | .ok d => .ok (some d)
    | .error e => .error ("error retrieving proposer duties: " ++ e)

/-- The error message returned by GetSyncCommitteeDuties for a pre-Altair
epoch (part_000 line 325). -/
def preAltairMsg (epoch : Nat) : String :=
  "cannot get sync committee duties for epoch before altair: " ++ toString epoch

/-- rpc.BeaconClient.GetSyncCommitteeDuties (part_000 lines 323-338).  For
an epoch before the Altair fork the Go returns (nil, error); there is no
sentinel success value on that path.  Otherwise the fetch result is passed
through. -/
def GetSyncCommitteeDuties (altairForkEpoch epoch : Nat)
    (fetch : FetchResult) : Except String Nat :=
  if epoch < altairForkEpoch then .error (preAltairMsg epoch)
  else fetch

/-- One entry of the validator set returned by GetStateValidators, with the
fields loadEpochStats reads: index, effective balance, and whether Status
is active_ongoing. -/
structure ValidatorEntry where
  index : Nat
  effectiveBalance : Nat
  statusActive : Bool
deriving Repr, DecidableEq

/-- The mutable contents of EpochStats.Validators (indexer.EpochValidators)
mutated by loadEpochStats. -/
structure EpochValidators where
  validatorCount : Nat
  eligibleAmount : Nat
  validatorBalances : Nat → Nat

/-- Latch and lock operations performed by loadEpochStats, in program
order. -/
inductive LatchEvent
  | unlockValidators
  | lockCache
  | unlockCache
deriving Repr, DecidableEq

/-- The per-validator loop body of loadEpochStats (lines 534-542): the
balance map is always updated; count and eligible amount only for
active_ongoing validators (uint64 accumulation). -/
def applyValidator (v : EpochValidators) (e : ValidatorEntry) : EpochValidators :=
  let v := { v with validatorBalances := fun i =>
               if i = e.index then e.effectiveBalance else v.validatorBalances i }
  if e.statusActive then
    { v with validatorCount := u64add v.validatorCount 1,
             eligibleAmount := u64add v.eligibleAmount e.effectiveBalance }
  else v

/-- indexer.loadEpochStats (lines 520-544).  The ValidatorsMutex unlock is
deferred at entry, so it fires exactly once at the end of both the
fetch-error path and the success path; the success path additionally takes
and releases the cache mutex while folding the fetched validator set into
the stats.  Returns the updated validators and the ordered event trace. -/
def loadEpochStats (fetch : Except String (List ValidatorEntry))
    (v : EpochValidators) : EpochValidators × List LatchEvent :=
  match fetch with
  | .error _ => (v, [.unlockValidators])
  | .ok vals =>
    (vals.foldl applyValidator v, [.lockCache, .unlockCache, .unlockValidators])

/-- The indexer state before any head block: empty caches, nil
lastHeadRoot, zero watermarks (NewIndexer, lines 63-74). -/
def initialIndexerState : IndexerState :=
  { lastHeadBlock := 0, lastHeadRoot := none, cachedBlocks := emptyCache,
    epochStats := fun _ => none, lowestCachedSlot := 0, lastProcessedEpoch := 0 }

/-- Feed one head block into an (optionally diverged) state, with fuel 32
for each walk, ample for the scenarios below. -/
def insertHead (st : Option IndexerState) (h : BlockHeader) : Option IndexerState :=
  st.bind (fun s => processHeadBlock s h.slot h 32 32 32)

/-- The Orphaned flag of the cached block with the given root at the given
slot. -/
def orphanedOf (st : IndexerState) (slot root : Nat) : Option Bool :=
  ((st.cachedBlocks slot).find? (fun b => b.root == root)).map (fun b => b.orphaned)

/-- Scenario of claim C3 (spec scenarios S3/S4): a linear chain through
slot 9 (roots 8 at slot 8 and 9 at slot 9), block A = root 100 at slot 10
with parent 9, block B = root 101 at slot 10 with parent 9, block C =
root 102 at slot 11 with parent B. -/
def c3AfterC : Option IndexerState :=
  insertHead (insertHead (insertHead (insertHead (insertHead
    (some initialIndexerState) ⟨8, 7, 8⟩) ⟨9, 8, 9⟩) ⟨100, 9, 10⟩) ⟨101, 9, 10⟩) ⟨102, 101, 11⟩

/-- Scenario of claim C3, continued: block D = root 103 at slot 12 with
parent A. -/
def c3AfterD : Option IndexerState :=
  insertHead c3AfterC ⟨103, 100, 12⟩

/-- Scenario of claim C2: canonical root 9 at slot 9; branch A1 = root 110
at slot 10 (parent 9) and A2 = root 111 at slot 11 (parent A1), both
orphaned by head B = root 120 at slot 12 (parent 9); then head D = root
130 at slot 13 arrives with parent A2, re-canonicalizing the two-block
branch A1 <- A2. -/
def c2Final : Option IndexerState :=
  insertHead (insertHead (insertHead (insertHead (insertHead
    (some initialIndexerState) ⟨9, 8, 9⟩) ⟨110, 9, 10⟩) ⟨111, 110, 11⟩) ⟨120, 9, 12⟩) ⟨130, 111, 13⟩

theorem U64_pos : 0 < U64 := by decide

theorem u64sub_of_le (a b : Nat) (hba : b ≤ a) (ha : a < U64) (hb : b < U64) :
    u64sub a b = a - b := by
  unfold u64sub
  rw [Nat.mod_eq_of_lt hb]
  have h1 : a + (U64 - b) = (a - b) + U64 := by omega
  rw [h1, Nat.add_mod_right, Nat.mod_eq_of_lt (by omega)]

theorem u64sub_of_lt (a b : Nat) (hab : a < b) (hb : b < U64) :
    u64sub a b = U64 - (b - a) := by
  unfold u64sub
  rw [Nat.mod_eq_of_lt hb]
  have h1 : a + (U64 - b) = U64 - (b - a) := by omega
  rw [h1]
  exact Nat.mod_eq_of_lt (by omega)

theorem u64dec_of_pos (a : Nat) (h1 : 1 ≤ a) (h2 : a < U64) : u64dec a = a - 1 := by
  unfold u64dec
  exact u64sub_of_le a 1 h1 h2 (by decide)

/-- C3: starting from a linear chain through slot 9, inserting A (root 100)
at slot 10 with the slot-9 parent, B (root 101) at slot 10 with the same
parent, then C (root 102) at slot 11 with parent B leaves A orphaned and B,
C canonical; inserting D (root 103) at slot 12 with parent A then flips the
flags: A canonical, B and C orphaned, D canonical. -/
theorem c3_one_slot_reorg_and_recanon :
    (c3AfterC.map (fun st =>
        (orphanedOf st 10 100, orphanedOf st 10 101, orphanedOf st 11 102))
      = some (some true, some false, some false))
    ∧ (c3AfterD.map (fun st =>
        (orphanedOf st 10 100, orphanedOf st 10 101, orphanedOf st 11 102, orphanedOf st 12 103))
      = some (some false, some true, some true, some false)) := by
  exact ⟨rfl, rfl⟩

/-- C2 is false on the code: in the c2Final scenario the head D (parent A2)
re-canonicalizes the two-block orphaned branch A1 (root 110, slot 10) <-
A2 (root 111, slot 11), whose first already-canonical ancestor is the
slot-9 block; the walk clears Orphaned on the reorg base A2 only, leaving
its ancestor A1 - a block of the re-canonicalized branch, now an ancestor
of the canonical head - still marked Orphaned.  (The competing block B,
root 120, is correctly orphaned and the slot-9 ancestor stays canonical.) -/
theorem c2_recanon_leaves_branch_block_orphaned :
    c2Final.map (fun st =>
        (orphanedOf st 11 111, orphanedOf st 10 110, orphanedOf st 12 120,
         orphanedOf st 9 9, orphanedOf st 13 130))
      = some (some false, some true, some true, some false, some false) := by
  exact rfl

/-- C7: loadEpochStats releases the validators-ready latch
(Validators.ValidatorsMutex) exactly once on every execution path, both
when the validator-set fetch succeeds and when it fails, because the
unlock is deferred at function entry. -/
theorem c7_validators_latch_released_once
    (fetch : Except String (List ValidatorEntry)) (v : EpochValidators) :
    ((loadEpochStats fetch v).2.count LatchEvent.unlockValidators) = 1 := by
  cases fetch <;> rfl

/-- C8 is false on the code at this input: with the Altair fork at epoch
74240, GetSyncCommitteeDuties for epoch 0 returns an error - even when the
underlying fetch would have succeeded - rather than a sentinel
"not applicable" success value. -/
theorem c8_pre_altair_is_error_not_sentinel :
    (GetSyncCommitteeDuties 74240 0 (Except.ok 5)).isOk = false := by
  exact rfl

/-- C8 amended: only GetProposerDuties has a sentinel: for any epoch at or
after a configured Whisk fork epoch it returns ok none (Go: nil, nil)
without consulting the fetch; GetSyncCommitteeDuties for any epoch before
the Altair fork epoch returns an error, not a sentinel. -/
theorem c8_amended_fork_range_results (w a epoch : Nat) (f : FetchResult)
    (hw : w ≤ epoch) (ha : epoch < a) :
    GetProposerDuties (some w) epoch f = .ok none
    ∧ GetSyncCommitteeDuties a epoch f = .error (preAltairMsg epoch) := by
  constructor
  · simp [GetProposerDuties, hw]
  · simp [GetSyncCommitteeDuties, ha]

theorem c8_amended_witness :
    GetProposerDuties (some 1) 3 (Except.error "e") = .ok none
    ∧ GetSyncCommitteeDuties 74240 3 (Except.error "e") = .error (preAltairMsg 3) :=
  c8_amended_fork_range_results 1 74240 3 (Except.error "e") (by decide) (by decide)

/-- State for the C1 counterexample, no-canonical-block case: head at slot
64 (current epoch 2), delay 1, so the frontier is epoch 1; epoch 1 has
stats but no cached block in slots 32..63. -/
def c1NoBlockState : IndexerState :=
  { lastHeadBlock := 64, lastHeadRoot := some 1, cachedBlocks := emptyCache,
    epochStats := fun e => if e = 1 then some ⟨0, some 0⟩ else none,
    lowestCachedSlot := 40, lastProcessedEpoch := 0 }

/-- State for the C1 counterexample, DB-failure case: same frontier, epoch
1 has stats and a canonical block at slot 32, but the DB commit fails. -/
def c1DbFailState : IndexerState :=
  { lastHeadBlock := 64, lastHeadRoot := some 1,
    cachedBlocks := fun s => if s = 32 then [⟨50, 49, 32, false⟩] else [],
    epochStats := fun e => if e = 1 then some ⟨0, some 0⟩ else none,
    lowestCachedSlot := 32, lastProcessedEpoch := 0 }

/-- C1 is false on the code: processIndexing advances lastProcessedEpoch
even when processEpoch fails.  With no canonical block in the frontier
epoch the outcome is noTarget, yet lastProcessedEpoch becomes 1 and the
next loop iteration does not call processEpoch again (no retry); with a
failing DB commit the outcome is dbCommitError and lastProcessedEpoch
still becomes 1. -/
theorem c1_failed_epoch_still_advances :
    (processIndexing 32 1 true c1NoBlockState ⟨true, true⟩).2 = some .noTarget
    ∧ (processIndexing 32 1 true c1NoBlockState ⟨true, true⟩).1.lastProcessedEpoch = 1
    ∧ (processIndexing 32 1 true
        (processIndexing 32 1 true c1NoBlockState ⟨true, true⟩).1 ⟨true, true⟩).2 = none
    ∧ (processIndexing 32 1 true c1DbFailState ⟨true, false⟩).2 = some .dbCommitError
    ∧ (processIndexing 32 1 true c1DbFailState ⟨true, false⟩).1.lastProcessedEpoch = 1 := by
  exact ⟨rfl, rfl, rfl, rfl, rfl⟩

/-- C1 amended: whenever lastProcessedEpoch is below the frontier,
processIndexing calls processEpoch once and then sets lastProcessedEpoch
to the frontier unconditionally - whatever the outcome of processEpoch
(DB transaction failure and no-canonical-block included) - and the
immediately following loop iteration performs no further processEpoch
call, so a failed epoch is not retried. -/
theorem c1_amended_unconditional_advance (spe delay : Nat) (writeDb : Bool)
    (st : IndexerState) (db : DbOracle)
    (h : st.lastProcessedEpoch < processFrontier spe delay st) :
    (processIndexing spe delay writeDb st db).1.lastProcessedEpoch
      = processFrontier spe delay st
    ∧ (processIndexing spe delay writeDb st db).2
      = some (processEpoch spe writeDb st db (processFrontier spe delay st))
    ∧ (processIndexing spe delay writeDb
        (processIndexing spe delay writeDb st db).1 db).2 = none := by
  have hst1 : (processIndexing spe delay writeDb st db).1
      = { st with lastProcessedEpoch := processFrontier spe delay st } := by
    simp only [processIndexing]
    rw [if_pos h]
  have hfr : ∀ x : Nat, processFrontier spe delay { st with lastProcessedEpoch := x }
      = processFrontier spe delay st := fun _ => rfl
  refine ⟨?_, ?_, ?_⟩
  · simp only [processIndexing]
    rw [if_pos h]
  · simp only [processIndexing]
    rw [if_pos h]
  · rw [hst1]
    simp [processIndexing, hfr]

theorem c1_amended_witness :
    c1NoBlockState.lastProcessedEpoch < processFrontier 32 1 c1NoBlockState
    ∧ (processIndexing 32 1 true c1NoBlockState ⟨true, true⟩).1.lastProcessedEpoch
        = processFrontier 32 1 c1NoBlockState :=
  ⟨by decide,
   (c1_amended_unconditional_advance 32 1 true c1NoBlockState ⟨true, true⟩ (by decide)).1⟩

/-- C10: the frontier and cleanup epochs are computed with unchecked
uint64 subtraction.  When the current epoch is below the processing delay
the frontier wraps to 2^64 - (delay - currentEpoch), at least 2^64 -
delay, and processIndexing then sets lastProcessedEpoch to that huge
value; the cleanup epoch wraps the same way below inMemoryEpochs.  The
bootstrap guard of runIndexer (currentEpoch > delay) only protects the
initial assignment, which stays 0 when the guard fails. -/
theorem c10_wrapping_frontier_and_cleanup (spe delay m : Nat) (st : IndexerState)
    (hd : epochOfSlot spe st.lastHeadBlock < delay) (hdu : delay < U64)
    (hm : epochOfSlot spe st.lastHeadBlock < m) (hmu : m < U64) :
    processFrontier spe delay st = U64 - (delay - epochOfSlot spe st.lastHeadBlock)
    ∧ U64 - delay ≤ processFrontier spe delay st
    ∧ cleanEpochOf spe m st = U64 - (m - epochOfSlot spe st.lastHeadBlock)
    ∧ (st.lastProcessedEpoch < U64 - (delay - epochOfSlot spe st.lastHeadBlock) →
        ∀ writeDb db, (processIndexing spe delay writeDb st db).1.lastProcessedEpoch
          = U64 - (delay - epochOfSlot spe st.lastHeadBlock))
    ∧ (∀ currentEpoch : Int, currentEpoch ≤ (delay : Int) →
        bootstrapLastProcessedEpoch delay currentEpoch = 0) := by
  have h1 : processFrontier spe delay st = U64 - (delay - epochOfSlot spe st.lastHeadBlock) :=
    u64sub_of_lt _ _ hd hdu
  have h2 : cleanEpochOf spe m st = U64 - (m - epochOfSlot spe st.lastHeadBlock) :=
    u64sub_of_lt _ _ hm hmu
  refine ⟨h1, by rw [h1]; omega, h2, ?_, ?_⟩
  · intro hlt writeDb db
    have hc : st.lastProcessedEpoch < processFrontier spe delay st := by rw [h1]; exact hlt
    simp only [processIndexing]
    rw [if_pos hc]
    exact h1
  · intro currentEpoch hce
    unfold bootstrapLastProcessedEpoch
    rw [if_neg (by omega)]

theorem c10_witness :
    epochOfSlot 32 initialIndexerState.lastHeadBlock < 5
    ∧ processFrontier 32 5 initialIndexerState = U64 - 5 :=
  ⟨by decide,
   (c10_wrapping_frontier_and_cleanup 32 5 6 initialIndexerState
      (by decide) (by decide) (by decide) (by decide)).1⟩

theorem findBaseLoop_exits (lowest headRoot parentRoot : Nat) (hl : 1 ≤ lowest) :
    ∀ fuel sidx cache base, sidx < U64 → sidx < fuel →
      findBaseLoop lowest headRoot parentRoot fuel sidx cache base ≠ none := by
  intro fuel
  induction fuel with
  | zero => intro sidx cache base hU hf; omega
  | succ f ih =>
    intro sidx cache base hU hf
    rw [findBaseLoop]
    by_cases hlt : sidx < lowest
    · rw [if_pos hlt]; exact Option.some_ne_none _
    · rw [if_neg hlt]
      rcases hsc : baseScanList headRoot parentRoot sidx (cache sidx) 0 base with ⟨l', b'⟩
      cases b' with
      | some b => simp [hsc]
      | none =>
        simp only [hsc]
        rw [u64dec_of_pos sidx (by omega) hU]
        exact ih (sidx - 1) _ none (by omega) (by omega)

theorem recanonInnerLoop_exits (lowest : Nat) (hl : 1 ≤ lowest) :
    ∀ fuel sidx cache ref found, sidx < U64 → sidx < fuel →
      recanonInnerLoop lowest fuel sidx cache ref found ≠ none := by
  intro fuel
  induction fuel with
  | zero => intro sidx cache ref found hU hf; omega
  | succ f ih =>
    intro sidx cache ref found hU hf
    rw [recanonInnerLoop]
    by_cases hlt : sidx < lowest
    · rw [if_pos hlt]; exact Option.some_ne_none _
    · rw [if_neg hlt]
      rcases hsc : recanonScanSlot cache sidx ref found with ⟨c', r', f'⟩
      cases f' with
      | true => simp [hsc]
      | false =>
        simp only [hsc]
        rw [u64dec_of_pos sidx (by omega) hU]
        exact ih (sidx - 1) c' r' false (by omega) (by omega)

theorem findBaseLoop_no_exit_at_zero (headRoot parentRoot : Nat) :
    ∀ fuel sidx cache, (∀ s, cache s = []) →
      findBaseLoop 0 headRoot parentRoot fuel sidx cache none = none := by
  intro fuel
  induction fuel with
  | zero => intro sidx cache hc; rfl
  | succ f ih =>
    intro sidx cache hc
    rw [findBaseLoop]
    rw [if_neg (by omega : ¬ sidx < 0)]
    simp only [hc sidx, baseScanList]
    exact ih _ _ (fun s => by simp [updCache, hc])

theorem recanonInnerLoop_no_exit_at_zero :
    ∀ fuel sidx cache ref, (∀ s, cache s = []) →
      recanonInnerLoop 0 fuel sidx cache ref false = none := by
  intro fuel
  induction fuel with
  | zero => intro sidx cache ref hc; rfl
  | succ f ih =>
    intro sidx cache ref hc
    rw [recanonInnerLoop]
    rw [if_neg (by omega : ¬ sidx < 0)]
    simp only [recanonScanSlot, hc sidx, recanonScanList]
    exact ih _ _ _ (fun s => by simp [updCache, hc])

/-- C9: both backward walks of processHeadBlock run a uint64 slot index
downward with exit condition sidx < lowestCachedSlot.  Whenever
lowestCachedSlot >= 1, each walk exits within sidx + 1 iterations for every
cache state (fuel sidx + 1 never runs out).  When lowestCachedSlot = 0 the
decrement wraps at 0 (sidx-- gives 2^64 - 1), so when no matching parent
block exists (empty cache) neither loop ever exits through its condition:
every finite fuel is exhausted. -/
theorem c9_backward_walks_u64_bounds :
    (∀ lowest headRoot parentRoot fuel sidx cache base,
        1 ≤ lowest → sidx < U64 → sidx < fuel →
        findBaseLoop lowest headRoot parentRoot fuel sidx cache base ≠ none)
    ∧ (∀ lowest fuel sidx cache ref found,
        1 ≤ lowest → sidx < U64 → sidx < fuel →
        recanonInnerLoop lowest fuel sidx cache ref found ≠ none)
    ∧ u64dec 0 = U64 - 1
    ∧ (∀ headRoot parentRoot fuel sidx cache, (∀ s, cache s = []) →
        findBaseLoop 0 headRoot parentRoot fuel sidx cache none = none)
    ∧ (∀ fuel sidx cache ref, (∀ s, cache s = []) →
        recanonInnerLoop 0 fuel sidx cache ref false = none) := by
  refine ⟨?_, ?_, by decide, ?_, ?_⟩
  · intro lowest hr pr fuel sidx cache base hl hU hf
    exact findBaseLoop_exits lowest hr pr hl fuel sidx cache base hU hf
  · intro lowest fuel sidx cache ref found hl hU hf
    exact recanonInnerLoop_exits lowest hl fuel sidx cache ref found hU hf
  · intro hr pr fuel sidx cache hc
    exact findBaseLoop_no_exit_at_zero hr pr fuel sidx cache hc
  · intro fuel sidx cache ref hc
    exact recanonInnerLoop_no_exit_at_zero fuel sidx cache ref hc

theorem c9_witness :
    (1 ≤ 1 ∧ (3:Nat) < U64 ∧ 3 < 4)
    ∧ findBaseLoop 1 500 501 4 3 emptyCache none ≠ none :=
  ⟨⟨le_refl 1, by decide, by decide⟩,
   c9_backward_walks_u64_bounds.1 1 500 501 4 3 emptyCache none
     (le_refl 1) (by decide) (by decide)⟩

theorem firstCanonicalAux_mem (cache : Cache) :
    ∀ count slot s b, firstCanonicalAux cache slot count = some (s, b) → b ∈ cache s := by
  intro count
  induction count with
  | zero =>
    intro slot s b h
    rw [firstCanonicalAux] at h
    exact Option.noConfusion h
  | succ c ih =>
    intro slot s b h
    rw [firstCanonicalAux] at h
    cases hf : (cache slot).find? (fun x => !x.orphaned) with
    | some x =>
      rw [hf] at h
      simp only [Option.some.injEq, Prod.mk.injEq] at h
      obtain ⟨rfl, rfl⟩ := h
      exact List.mem_of_find?_eq_some hf
    | none =>
      rw [hf] at h
      exact ih (slot + 1) s b h

/-- C5: on any cache whose slot keys agree with the stored header slots (the
indexer only ever files a block under its own header slot), the epoch
target computed by processEpoch and the one computed by BuildLiveEpoch both
equal the spec's rule - first non-orphaned block b of slots
firstSlot..lastSlot, root if b sits at firstSlot, parent root otherwise -
and when no non-orphaned block exists in the epoch, processEpoch returns
early with noTarget and BuildLiveEpoch returns nil, neither aggregating. -/
theorem c5_epoch_target_characterization (spe : Nat) (st : IndexerState) (epoch : Nat)
    (writeDb : Bool) (db : DbOracle)
    (hcons : ∀ s b, b ∈ st.cachedBlocks s → b.slot = s)
    (hstats : st.epochStats epoch ≠ none) :
    processEpochTarget spe st.cachedBlocks epoch = epochTargetSpec spe st.cachedBlocks epoch
    ∧ BuildLiveEpochTarget spe st epoch = epochTargetSpec spe st.cachedBlocks epoch
    ∧ (epochTargetSpec spe st.cachedBlocks epoch = none →
        processEpoch spe writeDb st db epoch = .noTarget
        ∧ BuildLiveEpochTarget spe st epoch = none) := by
  have hpt : processEpochTarget spe st.cachedBlocks epoch
      = epochTargetSpec spe st.cachedBlocks epoch := by
    unfold processEpochTarget epochTargetSpec
    cases hfc : firstCanonicalAux st.cachedBlocks (epochFirstSlot spe epoch) spe with
    | none => rfl
    | some p =>
      rcases p with ⟨s, b⟩
      have hb : b.slot = s :=
        hcons s b (firstCanonicalAux_mem st.cachedBlocks spe (epochFirstSlot spe epoch) s b hfc)
      simp only [hb]
  have hbl : BuildLiveEpochTarget spe st epoch = epochTargetSpec spe st.cachedBlocks epoch := by
    unfold BuildLiveEpochTarget epochTargetSpec
    cases hst : st.epochStats epoch with
    | none => exact absurd hst hstats
    | some es => rfl
  refine ⟨hpt, hbl, ?_⟩
  intro hnone
  constructor
  · unfold processEpoch
    cases hst : st.epochStats epoch with
    | none => exact absurd hst hstats
    | some es =>
      rw [hpt, hnone]
  · rw [hbl]
    exact hnone

theorem c5_witness :
    processEpochTarget 32 c1NoBlockState.cachedBlocks 1
      = epochTargetSpec 32 c1NoBlockState.cachedBlocks 1
    ∧ processEpoch 32 true c1NoBlockState ⟨true, true⟩ 1 = .noTarget :=
  have h := c5_epoch_target_characterization 32 c1NoBlockState 1 true ⟨true, true⟩
    (fun _ b hb => absurd hb (List.not_mem_nil b))
    (by decide)
  ⟨h.1, (h.2.2 (by decide)).1⟩

theorem dropLoop_spec :
    ∀ (n : Nat) (cache : Cache) (lowest thr : Nat), thr - lowest ≤ n →
      (dropLoop cache lowest thr).2 = max lowest thr
      ∧ ∀ s, (dropLoop cache lowest thr).1 s
          = if lowest ≤ s ∧ s < thr then [] else cache s := by
  intro n
  induction n with
  | zero =>
    intro cache lowest thr h
    have hnl : ¬ lowest < thr := by omega
    rw [dropLoop, if_neg hnl]
    refine ⟨by simp; omega, ?_⟩
    intro s
    rw [if_neg (by omega)]
  | succ n ih =>
    intro cache lowest thr h
    rw [dropLoop]
    by_cases hlt : lowest < thr
    · rw [if_pos hlt]
      obtain ⟨h2, h1⟩ := ih (updCache cache lowest []) (lowest + 1) thr (by omega)
      refine ⟨by rw [h2]; omega, ?_⟩
      intro s
      rw [h1 s]
      unfold updCache
      split_ifs <;> first | rfl | omega
    · rw [if_neg hlt]
      refine ⟨by simp; omega, ?_⟩
      intro s
      rw [if_neg (by omega)]

/-- C6: after a processCacheCleanup pass at current epoch c = epochOf
lastHeadBlock, with T = (c - inMemoryEpochs + 1) * slotsPerEpoch computed
without uint64 wrap: every slot still holding blocks is at or above T, the
watermark is at or above T, GetCachedBlocks answers nil below the
watermark, and - whenever the pass actually fires (watermark below T) -
the EpochStats of the dropped epoch c - inMemoryEpochs is evicted, its
Assignments handed to rpcClient.AddCachedEpochAssignments.  The hypothesis
hinv is the SlotCache invariant (no key below the watermark). -/
theorem c6_cache_cleanup_postconditions (spe m : Nat) (st : IndexerState)
    (hspe : 1 ≤ spe)
    (hinv : ∀ s, st.cachedBlocks s ≠ [] → st.lowestCachedSlot ≤ s)
    (hm : m ≤ epochOfSlot spe st.lastHeadBlock)
    (hcU : epochOfSlot spe st.lastHeadBlock < U64)
    (hov : (epochOfSlot spe st.lastHeadBlock - m + 1) * spe < U64) :
    (∀ s, (processCacheCleanup spe m st).1.cachedBlocks s ≠ [] →
        (epochOfSlot spe st.lastHeadBlock - m + 1) * spe ≤ s)
    ∧ (epochOfSlot spe st.lastHeadBlock - m + 1) * spe
        ≤ (processCacheCleanup spe m st).1.lowestCachedSlot
    ∧ (∀ s, s < (processCacheCleanup spe m st).1.lowestCachedSlot →
        GetCachedBlocks (processCacheCleanup spe m st).1 s = none)
    ∧ (st.lowestCachedSlot < (epochOfSlot spe st.lastHeadBlock - m + 1) * spe →
        (processCacheCleanup spe m st).1.epochStats
            (epochOfSlot spe st.lastHeadBlock - m) = none
        ∧ ∀ es, st.epochStats (epochOfSlot spe st.lastHeadBlock - m) = some es →
            (processCacheCleanup spe m st).2
              = some (epochOfSlot spe st.lastHeadBlock - m, es.assignments)) := by
  set c := epochOfSlot spe st.lastHeadBlock with hc
  set T := (c - m + 1) * spe with hT
  have hmU : m < U64 := by omega
  have hce : cleanEpochOf spe m st = c - m := u64sub_of_le c m hm hcU hmU
  have hsum : c - m + 1 < U64 := by
    have h1 : c - m + 1 ≤ T := by
      rw [hT]
      exact Nat.le_mul_of_pos_right _ hspe
    omega
  have hadd : u64add (c - m) 1 = c - m + 1 := by
    unfold u64add
    exact Nat.mod_eq_of_lt hsum
  have hmul : u64mul (c - m + 1) spe = T := by
    unfold u64mul
    rw [← hT]
    exact Nat.mod_eq_of_lt hov
  have hcond : u64mul (u64add (cleanEpochOf spe m st) 1) spe = T := by
    rw [hce, hadd, hmul]
  have hglobal : ∀ st2 : IndexerState, ∀ s, s < st2.lowestCachedSlot →
      GetCachedBlocks st2 s = none := by
    intro st2 s hs
    unfold GetCachedBlocks
    rw [if_pos hs]
  by_cases hfire : st.lowestCachedSlot < T
  · obtain ⟨hd2, hd1⟩ :=
      dropLoop_spec (T - st.lowestCachedSlot) st.cachedBlocks st.lowestCachedSlot T (le_refl _)
    have hlow : (dropLoop st.cachedBlocks st.lowestCachedSlot T).2 = T := by
      rw [hd2]; omega
    have hcb1 : ∀ s, (dropLoop st.cachedBlocks st.lowestCachedSlot T).1 s ≠ [] → T ≤ s := by
      intro s hne
      rw [hd1 s] at hne
      by_cases hin : st.lowestCachedSlot ≤ s ∧ s < T
      · rw [if_pos hin] at hne
        exact absurd rfl hne
      · rw [if_neg hin] at hne
        have := hinv s hne
        omega
    cases hes : st.epochStats (c - m) with
    | some es =>
      have hpc : processCacheCleanup spe m st
          = ({ st with cachedBlocks := (dropLoop st.cachedBlocks st.lowestCachedSlot T).1,
                       lowestCachedSlot := (dropLoop st.cachedBlocks st.lowestCachedSlot T).2,
                       epochStats := fun e => if e = c - m then none else st.epochStats e },
             some (c - m, es.assignments)) := by
        simp only [processCacheCleanup]
        rw [hcond, hce, if_pos hfire, hes]
      have hccb : (processCacheCleanup spe m st).1.cachedBlocks
          = (dropLoop st.cachedBlocks st.lowestCachedSlot T).1 := by rw [hpc]
      have hcls : (processCacheCleanup spe m st).1.lowestCachedSlot
          = (dropLoop st.cachedBlocks st.lowestCachedSlot T).2 := by rw [hpc]
      have hces : (processCacheCleanup spe m st).1.epochStats
          = fun e => if e = c - m then none else st.epochStats e := by rw [hpc]
      have hcsnd : (processCacheCleanup spe m st).2 = some (c - m, es.assignments) := by
        rw [hpc]
      refine ⟨?_, ?_, fun s hs => hglobal _ s hs, fun _ => ⟨?_, ?_⟩⟩
      · intro s hne
        rw [hccb] at hne
        exact hcb1 s hne
      · rw [hcls, hlow]
      · rw [hces]
        simp
      · intro es2 hes2
        simp only [Option.some.injEq] at hes2
        rw [hcsnd, hes2]
    | none =>
      have hpc : processCacheCleanup spe m st
          = ({ st with cachedBlocks := (dropLoop st.cachedBlocks st.lowestCachedSlot T).1,
                       lowestCachedSlot := (dropLoop st.cachedBlocks st.lowestCachedSlot T).2 },
             none) := by
        simp only [processCacheCleanup]
        rw [hcond, hce, if_pos hfire, hes]
      have hccb : (processCacheCleanup spe m st).1.cachedBlocks
          = (dropLoop st.cachedBlocks st.lowestCachedSlot T).1 := by rw [hpc]
      have hcls : (processCacheCleanup spe m st).1.lowestCachedSlot
          = (dropLoop st.cachedBlocks st.lowestCachedSlot T).2 := by rw [hpc]
      have hces : (processCacheCleanup spe m st).1.epochStats = st.epochStats := by rw [hpc]
      refine ⟨?_, ?_, fun s hs => hglobal _ s hs, fun _ => ⟨?_, ?_⟩⟩
      · intro s hne
        rw [hccb] at hne
        exact hcb1 s hne
      · rw [hcls, hlow]
      · rw [hces]
        exact hes
      · intro es2 hes2
        exact Option.noConfusion hes2
  · have hpc : processCacheCleanup spe m st = (st, none) := by
      simp only [processCacheCleanup]
      rw [hcond, if_neg hfire]
    have hccb : (processCacheCleanup spe m st).1.cachedBlocks = st.cachedBlocks := by rw [hpc]
    have hcls : (processCacheCleanup spe m st).1.lowestCachedSlot = st.lowestCachedSlot := by
      rw [hpc]
    refine ⟨?_, ?_, fun s hs => hglobal _ s hs, fun hf => absurd hf hfire⟩
    · intro s hne
      rw [hccb] at hne
      have := hinv s hne
      omega
    · rw [hcls]
      omega

/-- Concrete state for the C6 witness: head at slot 96 (current epoch 3),
one cached block at slot 32, watermark 32, stats present for epoch 2 (the
epoch dropped with inMemoryEpochs = 1). -/
def c6State : IndexerState :=
  { lastHeadBlock := 96, lastHeadRoot := some 1,
    cachedBlocks := fun s => if s = 32 then [⟨60, 59, 32, false⟩] else [],
    epochStats := fun e => if e = 2 then some ⟨5, some 7⟩ else none,
    lowestCachedSlot := 32, lastProcessedEpoch := 0 }

theorem c6_witness :
    (1 ≤ 32 ∧ 1 ≤ epochOfSlot 32 c6State.lastHeadBlock
      ∧ epochOfSlot 32 c6State.lastHeadBlock < U64
      ∧ (epochOfSlot 32 c6State.lastHeadBlock - 1 + 1) * 32 < U64)
    ∧ (epochOfSlot 32 c6State.lastHeadBlock - 1 + 1) * 32
        ≤ (processCacheCleanup 32 1 c6State).1.lowestCachedSlot :=
  ⟨⟨by decide, by decide, by decide, by decide⟩,
   (c6_cache_cleanup_postconditions 32 1 c6State (by decide)
      (fun s h => by
        by_cases hs : s = 32
        · show 32 ≤ s
          omega
        · exact absurd (by simp [c6State, hs]) h)
      (by decide) (by decide) (by decide)).2.1⟩

theorem finishHead_cachedBlocks (st : IndexerState) (slot : Nat) (h : BlockHeader)
    (lo : Nat) (c : Cache) : (finishHead st slot h lo c).cachedBlocks = c := rfl

theorem updCache_map_root (cache : Cache) (sidx : Nat) (l' : List BlockInfo)
    (hl : l'.map BlockInfo.root = (cache sidx).map BlockInfo.root) :
    ∀ s, (updCache cache sidx l' s).map BlockInfo.root = (cache s).map BlockInfo.root := by
  intro s
  unfold updCache
  by_cases hs : s = sidx
  · rw [if_pos hs, hs]
    exact hl
  · rw [if_neg hs]

theorem baseScanList_map_root (hr pr sidx : Nat) :
    ∀ (l : List BlockInfo) (bidx : Nat) (base : Option Ref),
      (baseScanList hr pr sidx l bidx base).1.map BlockInfo.root
        = l.map BlockInfo.root := by
  intro l
  induction l with
  | nil => intro bidx base; rfl
  | cons b rest ih =>
    intro bidx base
    rw [baseScanList]
    by_cases h1 : b.root = hr
    · rw [if_pos h1]
      simp only [List.map_cons]
      rw [ih (bidx + 1) base]
    · rw [if_neg h1]
      by_cases h2 : b.root = pr
      · rw [if_pos h2]
        simp only [List.map_cons]
        rw [ih (bidx + 1) (some (sidx, bidx))]
      · rw [if_neg h2]
        simp only [List.map_cons]
        rw [ih (bidx + 1) base]

theorem findBaseLoop_map_root (lowest hr pr : Nat) :
    ∀ fuel sidx cache base cache2 base2,
      findBaseLoop lowest hr pr fuel sidx cache base = some (cache2, base2) →
      ∀ s, (cache2 s).map BlockInfo.root = (cache s).map BlockInfo.root := by
  intro fuel
  induction fuel with
  | zero => intro sidx cache base cache2 base2 h s; exact Option.noConfusion h
  | succ f ih =>
    intro sidx cache base cache2 base2 h s
    rw [findBaseLoop] at h
    by_cases hlt : sidx < lowest
    · rw [if_pos hlt] at h
      simp only [Option.some.injEq, Prod.mk.injEq] at h
      obtain ⟨rfl, rfl⟩ := h
      rfl
    · rw [if_neg hlt] at h
      rcases hsc : baseScanList hr pr sidx (cache sidx) 0 base with ⟨l', b'⟩
      have hpres : l'.map BlockInfo.root = (cache sidx).map BlockInfo.root := by
        have hb := baseScanList_map_root hr pr sidx (cache sidx) 0 base
        rw [hsc] at hb
        exact hb
      cases b' with
      | some b =>
        simp only [hsc] at h
        simp only [Option.some.injEq, Prod.mk.injEq] at h
        obtain ⟨rfl, rfl⟩ := h
        exact updCache_map_root cache sidx l' hpres s
      | none =>
        simp only [hsc] at h
        have hrec := ih (u64dec sidx) (updCache cache sidx l') none cache2 base2 h
        rw [hrec s]
        exact updCache_map_root cache sidx l' hpres s

theorem recanonScanList_map_root (cache : Cache) (sidx : Nat) :
    ∀ (l : List BlockInfo) (bidx : Nat) (ref : Ref) (found : Bool),
      (recanonScanList cache sidx l bidx ref found).1.map BlockInfo.root
        = l.map BlockInfo.root := by
  intro l
  induction l with
  | nil => intro bidx ref found; rfl
  | cons b rest ih =>
    intro bidx ref found
    rw [recanonScanList]
    by_cases h1 : b.root = (getRef cache ref).parentRoot
    · rw [if_pos h1]
      simp only [List.map_cons]
      rw [ih (bidx + 1) (sidx, bidx) (found || !b.orphaned)]
    · rw [if_neg h1]
      simp only [List.map_cons]
      rw [ih (bidx + 1) ref found]

theorem recanonScanSlot_map_root (cache : Cache) (sidx : Nat) (ref : Ref) (found : Bool) :
    ∀ s, ((recanonScanSlot cache sidx ref found).1 s).map BlockInfo.root
      = (cache s).map BlockInfo.root := by
  intro s
  unfold recanonScanSlot
  exact updCache_map_root cache sidx _ (recanonScanList_map_root cache sidx (cache sidx) 0 ref found) s

theorem recanonInnerLoop_map_root (lowest : Nat) :
    ∀ fuel sidx cache ref found cache2 ref2 found2,
      recanonInnerLoop lowest fuel sidx cache ref found = some (cache2, ref2, found2) →
      ∀ s, (cache2 s).map BlockInfo.root = (cache s).map BlockInfo.root := by
  intro fuel
  induction fuel with
  | zero => intro sidx cache ref found cache2 ref2 found2 h s; exact Option.noConfusion h
  | succ f ih =>
    intro sidx cache ref found cache2 ref2 found2 h s
    rw [recanonInnerLoop] at h
    by_cases hlt : sidx < lowest
    · rw [if_pos hlt] at h
      simp only [Option.some.injEq, Prod.mk.injEq] at h
      obtain ⟨rfl, rfl, rfl⟩ := h
      rfl
    · rw [if_neg hlt] at h
      rcases hsc : recanonScanSlot cache sidx ref found with ⟨c', r', f'⟩
      have hpres : ∀ s, (c' s).map BlockInfo.root = (cache s).map BlockInfo.root := by
        intro s2
        have hb := recanonScanSlot_map_root cache sidx ref found s2
        rw [hsc] at hb
        exact hb
      cases f' with
      | true =>
        simp only [hsc] at h
        simp only [Option.some.injEq, Prod.mk.injEq] at h
        obtain ⟨rfl, rfl, rfl⟩ := h
        exact hpres s
      | false =>
        simp only [hsc] at h
        have hrec := ih (u64dec sidx) c' r' false cache2 ref2 found2 h
        rw [hrec s]
        exact hpres s

theorem set_mark_map_root (v : Bool) :
    ∀ (l : List BlockInfo) (i : Nat),
      (l.set i { l.getD i dfltBlock with orphaned := v }).map BlockInfo.root
        = l.map BlockInfo.root := by
  intro l
  induction l with
  | nil => intro i; rfl
  | cons b rest ih =>
    intro i
    cases i with
    | zero => simp
    | succ n =>
      simp only [List.getD_cons_succ, List.set_cons_succ, List.map_cons]
      rw [ih n]

theorem setOrphanedAt_map_root (cache : Cache) (r : Ref) (v : Bool) :
    ∀ s, (setOrphanedAt cache r v s).map BlockInfo.root = (cache s).map BlockInfo.root := by
  intro s
  unfold setOrphanedAt
  exact updCache_map_root cache r.1 _ (set_mark_map_root v (cache r.1) r.2) s

theorem recanonOuterLoop_map_root (lowest baseSlot ifuel : Nat) :
    ∀ ofuel cache ref resync cache2 resync2,
      recanonOuterLoop lowest baseSlot ifuel ofuel cache ref resync = some (cache2, resync2) →
      ∀ s, (cache2 s).map BlockInfo.root = (cache s).map BlockInfo.root := by
  intro ofuel
  induction ofuel with
  | zero => intro cache ref resync cache2 resync2 h s; exact Option.noConfusion h
  | succ f ih =>
    intro cache ref resync cache2 resync2 h s
    rw [recanonOuterLoop] at h
    by_cases horph : (getRef cache ref).orphaned = true
    · rw [if_pos horph] at h
      rcases hil : recanonInnerLoop lowest ifuel (u64dec baseSlot)
          (setOrphanedAt cache ref false) ref false with _ | ⟨c'', r'', fnd⟩
      · simp only [hil] at h
        exact Option.noConfusion h
      · simp only [hil] at h
        have hrec := ih c'' r'' (resync || !fnd) cache2 resync2 h
        rw [hrec s]
        have hin := recanonInnerLoop_map_root lowest ifuel (u64dec baseSlot)
          (setOrphanedAt cache ref false) ref false c'' r'' fnd hil
        rw [hin s]
        exact setOrphanedAt_map_root cache ref false s
    · rw [if_neg horph] at h
      simp only [Option.some.injEq, Prod.mk.injEq] at h
      obtain ⟨rfl, rfl⟩ := h
      rfl

theorem any_root_eq_of_map_root (r : Nat) :
    ∀ (l1 l2 : List BlockInfo), l1.map BlockInfo.root = l2.map BlockInfo.root →
      l1.any (fun b => b.root == r) = l2.any (fun b => b.root == r) := by
  intro l1
  induction l1 with
  | nil =>
    intro l2 h
    cases l2 with
    | nil => rfl
    | cons c cs => simp at h
  | cons b rest ih =>
    intro l2 h
    cases l2 with
    | nil => simp at h
    | cons c cs =>
      simp only [List.map_cons, List.cons.injEq] at h
      obtain ⟨h1, h2⟩ := h
      simp only [List.any_cons]
      rw [h1, ih cs h2]

theorem inserted_any_root (st : IndexerState) (slot : Nat) (h : BlockHeader) :
    ((insertedCache st slot h) slot).any (fun b => b.root == h.root) = true := by
  unfold insertedCache updCache
  rw [if_pos rfl]
  simp

theorem processHeadBlock_keeps_root (st st' : IndexerState) (slot : Nat) (h : BlockHeader)
    (bf fi fo : Nat)
    (hrun : processHeadBlock st slot h bf fi fo = some st') :
    (st'.cachedBlocks slot).any (fun b => b.root == h.root) = true := by
  unfold processHeadBlock at hrun
  by_cases hdup : (st.cachedBlocks slot).any (fun b => b.root == h.root) = true
  · rw [if_pos hdup] at hrun
    obtain rfl : st = st' := Option.some.inj hrun
    exact hdup
  · rw [if_neg hdup] at hrun
    have hins := inserted_any_root st slot h
    cases hlhr : st.lastHeadRoot with
    | none =>
      simp only [hlhr] at hrun
      obtain rfl : finishHead st slot h (newLowest st slot) (insertedCache st slot h) = st' :=
        Option.some.inj hrun
      rw [finishHead_cachedBlocks]
      exact hins
    | some lhr =>
      simp only [hlhr] at hrun
      by_cases hpar : lhr = h.parentRoot
      · rw [if_pos hpar] at hrun
        obtain rfl : finishHead st slot h (newLowest st slot) (insertedCache st slot h) = st' :=
          Option.some.inj hrun
        rw [finishHead_cachedBlocks]
        exact hins
      · rw [if_neg hpar] at hrun
        split at hrun
        · exact Option.noConfusion hrun
        · rename_i cache2 heq
          obtain rfl : finishHead st slot h (newLowest st slot) cache2 = st' :=
            Option.some.inj hrun
          rw [finishHead_cachedBlocks]
          have hmap2 := findBaseLoop_map_root (newLowest st slot) h.root h.parentRoot bf slot
            (insertedCache st slot h) none cache2 none heq
          rw [any_root_eq_of_map_root h.root (cache2 slot) _ (hmap2 slot)]
          exact hins
        · rename_i cache2 baseRef heq
          have hmap2 := findBaseLoop_map_root (newLowest st slot) h.root h.parentRoot bf slot
            (insertedCache st slot h) none cache2 (some baseRef) heq
          by_cases horph : (getRef cache2 baseRef).orphaned = true
          · rw [if_pos horph] at hrun
            split at hrun
            · exact Option.noConfusion hrun
            · rename_i cache3 rs heq2
              obtain rfl : finishHead st slot h (newLowest st slot) cache3 = st' :=
                Option.some.inj hrun
              rw [finishHead_cachedBlocks]
              have hmap3 := recanonOuterLoop_map_root (newLowest st slot) baseRef.1 fi fo
                cache2 baseRef false cache3 rs heq2
              rw [any_root_eq_of_map_root h.root (cache3 slot) (cache2 slot) (hmap3 slot)]
              rw [any_root_eq_of_map_root h.root (cache2 slot) _ (hmap2 slot)]
              exact hins
          · rw [if_neg horph] at hrun
            obtain rfl : finishHead st slot h (newLowest st slot) cache2 = st' :=
              Option.some.inj hrun
            rw [finishHead_cachedBlocks]
            rw [any_root_eq_of_map_root h.root (cache2 slot) _ (hmap2 slot)]
            exact hins

/-- C4: inserting the same (slot, root, header, body) twice through
processHeadBlock yields the same state as inserting it once: whatever the
first call produced (fresh insert with or without reorg walks, or itself a
duplicate), the second call finds the root among the slot's entries during
the duplicate scan, skips silently, and returns the state unchanged with
no entry appended. -/
theorem c4_duplicate_insert_idempotent (st st' : IndexerState) (slot : Nat)
    (h : BlockHeader) (bf fi fo : Nat)
    (hrun : processHeadBlock st slot h bf fi fo = some st') :
    processHeadBlock st' slot h bf fi fo = some st' := by
  have hkeep := processHeadBlock_keeps_root st st' slot h bf fi fo hrun
  unfold processHeadBlock
  rw [if_pos hkeep]

/-- Concrete state for the C4 witness: the block (slot 8, root 8) is
already cached, so re-inserting it is a duplicate. -/
def c4State : IndexerState :=
  { lastHeadBlock := 8, lastHeadRoot := some 8,
    cachedBlocks := fun s => if s = 8 then [⟨8, 7, 8, false⟩] else [],
    epochStats := fun _ => none, lowestCachedSlot := 8, lastProcessedEpoch := 0 }

theorem c4_witness :
    processHeadBlock c4State 8 ⟨8, 7, 8⟩ 5 5 5 = some c4State :=
  c4_duplicate_insert_idempotent c4State c4State 8 ⟨8, 7, 8⟩ 5 5 5 rfl

end Dora
